import Mathlib

/-!
Verification development for the MOO test-file reader (class Moo::Reader in
MooReader.h). The decoder walks a chunked binary container: 4-byte tag,
u32 little-endian length, payload. We embed the reader shallowly: the byte
buffer is a list of naturals (each byte value taken mod 256 on fixed-width
loads, mirroring the uint8_t data vector), the mutable cursor becomes a
remaining-suffix list, and the loops bounded by a chunk data_end become a
remaining byte budget (lim). A C++ exception becomes a DecodeError value.
Loops that are not structurally recursive carry an explicit fuel argument;
every top-level entry point passes fuel that provably exceeds the maximal
number of iterations (each iteration consumes at least an 8-byte chunk
header from the budget), so the fuel never runs out on those calls.
-/

namespace MooSpec

/-- Error values standing for the distinct runtime_error throws of the reader:
truncation (Read past end of data), vector index out of range in the register
fill loop (undefined behaviour in the C++ source, made a checked failure
here), unsupported MOO version, unsupported CPU type, missing MOO header
chunk, and invalid value in revocation list. -/
inductive DecodeError where
  | truncated
  | badIndex
  | unsupportedVersion
  | unsupportedCpu
  | invalidContainer
  | invalidRevocation
deriving DecidableEq, Repr

/-- Result type of a decoding step: either a value or the first error thrown. -/
abbrev Decode (a : Type) := Except DecodeError a

instance {e a : Type} [DecidableEq e] [DecidableEq a] : DecidableEq (Except e a)
  | .error x, .error y =>
    if h : x = y then .isTrue (by rw [h]) else .isFalse (by simp [h])
  | .ok x, .ok y =>
    if h : x = y then .isTrue (by rw [h]) else .isFalse (by simp [h])
  | .error _, .ok _ => .isFalse (by simp)
  | .ok _, .error _ => .isFalse (by simp)

/-- Little-endian value of a byte list, each byte reduced mod 256 exactly as a
uint8_t element of the data vector is. Models the assembly loop of
Reader::Read with value |= data[offset+i] << (i*8). -/
def le : List Nat → Nat
  | [] => 0
  | b :: bs => b % 256 + 256 * le bs

/-- Models Reader::Read of a fixed-width little-endian integer of n bytes:
bounds check against the end of data, then assemble and advance. Returns the
value and the remaining suffix of the buffer. -/
def readUInt (n : Nat) (rem : List Nat) : Decode (Nat × List Nat) :=
  if n ≤ rem.length then .ok (le (rem.take n), rem.drop n)
  else .error .truncated

/-- Models Reader::ReadBytes: bounds check, then copy n raw bytes and advance. -/
def readBytesL (n : Nat) (rem : List Nat) : Decode (List Nat × List Nat) :=
  if n ≤ rem.length then .ok (rem.take n, rem.drop n)
  else .error .truncated

/-- Models Reader::ChunkHeader: the 4 raw tag bytes and the u32 payload
length. data_start and data_end of the source become, in remaining-suffix
style, the list after the header and the budget equal to length. -/
structure ChunkHeader where
  type : List Nat
  length : Nat
deriving DecidableEq, Repr

/-- Models Reader::ReadChunkHeader: 4 tag bytes then a u32 length. -/
def readChunkHeader (rem : List Nat) : Decode (ChunkHeader × List Nat) :=
  match readBytesL 4 rem with
  | .error e => .error e
  | .ok (t, r1) =>
    match readUInt 4 r1 with
    | .error e => .error e
    | .ok (len, r2) => .ok ({ type := t, length := len }, r2)

/-- Tag bytes of the MOO  chunk. -/
def tagMOO : List Nat := [77, 79, 79, 32]
/-- Tag bytes of the TEST chunk. -/
def tagTEST : List Nat := [84, 69, 83, 84]
/-- Tag bytes of the NAME chunk. -/
def tagNAME : List Nat := [78, 65, 77, 69]
/-- Tag bytes of the BYTS chunk. -/
def tagBYTS : List Nat := [66, 89, 84, 83]
/-- Tag bytes of the INIT chunk. -/
def tagINIT : List Nat := [73, 78, 73, 84]
/-- Tag bytes of the FINA chunk. -/
def tagFINA : List Nat := [70, 73, 78, 65]
/-- Tag bytes of the CYCL chunk. -/
def tagCYCL : List Nat := [67, 89, 67, 76]
/-- Tag bytes of the EXCP chunk. -/
def tagEXCP : List Nat := [69, 88, 67, 80]
/-- Tag bytes of the HASH chunk. -/
def tagHASH : List Nat := [72, 65, 83, 72]
/-- Tag bytes of the GMET chunk. -/
def tagGMET : List Nat := [71, 77, 69, 84]
/-- Tag bytes of the REGS chunk. -/
def tagREGS : List Nat := [82, 69, 71, 83]
/-- Tag bytes of the RG32 chunk. -/
def tagRG32 : List Nat := [82, 71, 51, 50]
/-- Tag bytes of the RMSK chunk. -/
def tagRMSK : List Nat := [82, 77, 83, 75]
/-- Tag bytes of the RM32 chunk. -/
def tagRM32 : List Nat := [82, 77, 51, 50]
/-- Tag bytes of the RAM  chunk (trailing space). -/
def tagRAM : List Nat := [82, 65, 77, 32]
/-- Tag bytes of the QUEU chunk. -/
def tagQUEU : List Nat := [81, 85, 69, 85]

/-- Models enum Reader::CPUType. -/
inductive CPUType where
  | CPU8088
  | CPU8086
  | CPUV20
  | CPUV30
  | CPU286
  | CPU386E
deriving DecidableEq, Repr

/-- Models enum TYPE nested in Reader::RegisterState. -/
inductive RegTYPE where
  | REG_16
  | REG_32
deriving DecidableEq, Repr

/-- Models Reader::RegisterState: the selection bitmask, the fixed-size values
vector (14 entries for REG_16, 20 for REG_32 once decoded; empty when default
constructed), the width tag and the is_populated flag. -/
structure RegisterState where
  bitmask : Nat
  values : List Nat
  type : RegTYPE
  is_populated : Bool
deriving DecidableEq, Repr

instance : Inhabited RegisterState :=
  ⟨{ bitmask := 0, values := [], type := .REG_16, is_populated := false }⟩

/-- Models RegisterState::HasRegister(REG16): bitmask bit test. -/
def RegisterState.HasRegister16 (rs : RegisterState) (reg : Fin 14) : Bool :=
  rs.bitmask.testBit reg.val

/-- Models RegisterState::GetRegister(REG16): throws when the state is not
16-bit; the unchecked vector access values[reg] becomes an Option lookup
(none stands for the out-of-range access of an empty default vector, which is
undefined behaviour in the source). -/
def RegisterState.GetRegister16 (rs : RegisterState) (reg : Fin 14) : Option Nat :=
  if rs.type = RegTYPE.REG_16 then rs.values.get? reg.val else none

/-- Models RegisterState::HasRegister(REG32): bitmask bit test. -/
def RegisterState.HasRegister32 (rs : RegisterState) (reg : Fin 20) : Bool :=
  rs.bitmask.testBit reg.val

/-- Models RegisterState::GetRegister(REG32): as the 16-bit variant but
requiring the 32-bit width tag. -/
def RegisterState.GetRegister32 (rs : RegisterState) (reg : Fin 20) : Option Nat :=
  if rs.type = RegTYPE.REG_32 then rs.values.get? reg.val else none

/-- Models Reader::RamEntry. -/
structure RamEntry where
  address : Nat
  value : Nat
deriving DecidableEq, Repr

/-- Models Reader::QueueData. -/
structure QueueData where
  bytes : List Nat
deriving DecidableEq, Repr

/-- Models Reader::CpuState: registers, undefined-bit masks, ram entries and
the optional queue. -/
structure CpuState where
  regs : RegisterState
  masks : RegisterState
  ram : List RamEntry
  queue : QueueData
  has_queue : Bool
deriving DecidableEq, Repr

instance : Inhabited CpuState :=
  ⟨{ regs := default, masks := default, ram := [], queue := ⟨[]⟩, has_queue := false }⟩

/-- Models Reader::Cycle. The two pin bitfield structs are kept as the raw
bytes they are memcpy-initialised from. -/
structure Cycle where
  pin_bitfield0 : Nat
  address_latch : Nat
  segment_status : Nat
  memory_status : Nat
  io_status : Nat
  pin_bitfield1 : Nat
  data_bus : Nat
  bus_status : Nat
  t_state : Nat
  queue_op_status : Nat
  queue_byte_read : Nat
deriving DecidableEq, Repr

/-- Models the Reader::Exception record of an EXCP chunk. -/
structure CpuException where
  number : Nat
  flag_addr : Nat
deriving DecidableEq, Repr

/-- Models Reader::MooHeader. cpu_name is the 8-byte space-padded name. -/
structure MooHeader where
  version_major : Nat
  version_minor : Nat
  reserved : List Nat
  test_count : Nat
  cpu_name : List Nat
  cpu_type : CPUType
deriving DecidableEq, Repr

/-- Models MooHeader::GetVersionU16: major in the high byte, minor low. -/
def MooHeader.GetVersionU16 (h : MooHeader) : Nat :=
  h.version_major <<< 8 ||| h.version_minor

/-- Models Reader::Test. The hash member is value-initialised to 20 zero
bytes, as the std::array member initialiser does. The C++ exception member is
left indeterminate by default construction; it is given the fixed value 0/0
here, and no theorem below relies on the defaulted exception fields. -/
structure Test where
  index : Nat
  name : List Nat
  bytes : List Nat
  init_state : CpuState
  final_state : CpuState
  cycles : List Cycle
  has_exception : Bool
  exception : CpuException
  has_hash : Bool
  hash : List Nat
deriving DecidableEq, Repr

instance : Inhabited Test :=
  ⟨{ index := 0, name := [], bytes := [], init_state := default,
     final_state := default, cycles := [], has_exception := false,
     exception := ⟨0, 0⟩, has_hash := false, hash := List.replicate 20 0 }⟩

/-- Models Test::GetInitialRegister(REG16). -/
def Test.GetInitialRegister16 (t : Test) (reg : Fin 14) : Option Nat :=
  t.init_state.regs.GetRegister16 reg

/-- Models Test::GetFinalRegister(REG16, masked): the final value when the
final bitmask has the register, optionally masked by the final-state mask
entry; otherwise falls back to the initial register. -/
def Test.GetFinalRegister16 (t : Test) (reg : Fin 14) (masked : Bool) : Option Nat :=
  if t.final_state.regs.HasRegister16 reg then
    match t.final_state.regs.GetRegister16 reg with
    | none => none
    | some ret =>
      if masked && t.final_state.masks.HasRegister16 reg then
        match t.final_state.masks.GetRegister16 reg with
        | none => none
        | some m => some (ret &&& m)
      else some ret
  else t.GetInitialRegister16 reg

/-- Models Test::GetInitialRegister(REG32). -/
def Test.GetInitialRegister32 (t : Test) (reg : Fin 20) : Option Nat :=
  t.init_state.regs.GetRegister32 reg

/-- Models Test::GetFinalRegister(REG32, masked). -/
def Test.GetFinalRegister32 (t : Test) (reg : Fin 20) (masked : Bool) : Option Nat :=
  if t.final_state.regs.HasRegister32 reg then
    match t.final_state.regs.GetRegister32 reg with
    | none => none
    | some ret =>
      if masked && t.final_state.masks.HasRegister32 reg then
        match t.final_state.masks.GetRegister32 reg with
        | none => none
        | some m => some (ret &&& m)
      else some ret
  else t.GetInitialRegister32 reg

/-- Models the fill loop shared by Reader::ReadRegisters16 and
ReadRegisters32: for each bit of the bitmask from bit i upward (count bits
left to scan), read one w-byte value and store it at index i of the values
vector. The unchecked vector store values[i] of the source is a checked store
here: an index outside the vector is the badIndex failure (undefined
behaviour in C++). -/
def regFill (w : Nat) (bm : Nat) : Nat → Nat → List Nat → List Nat → Decode (List Nat × List Nat)
  | _, 0, values, rem => .ok (values, rem)
  | i, count + 1, values, rem =>
    if bm.testBit i then
      match readUInt w rem with
      | .error e => .error e
      | .ok (v, rem1) =>
        if i < values.length then regFill w bm (i + 1) count (values.set i v) rem1
        else .error .badIndex
    else regFill w bm (i + 1) count values rem

/-- Models Reader::ReadRegisters16 (REGS and RMSK chunks): u16 bitmask, values
vector sized to REG16::COUNT = 14, then the 16-iteration fill loop of u16
reads. Also returns the unconsumed suffix. -/
def readRegisters16 (rem : List Nat) : Decode (RegisterState × List Nat) :=
  match readUInt 2 rem with
  | .error e => .error e
  | .ok (bm, r1) =>
    match regFill 2 bm 0 16 (List.replicate 14 0) r1 with
    | .error e => .error e
    | .ok (vals, r2) =>
      .ok ({ bitmask := bm, values := vals, type := .REG_16, is_populated := true }, r2)

/-- Models Reader::ReadRegisters32 (RG32 and RM32 chunks): u32 bitmask, values
vector sized to REG32::COUNT = 20, then the 32-iteration fill loop of u32
reads. -/
def readRegisters32 (rem : List Nat) : Decode (RegisterState × List Nat) :=
  match readUInt 4 rem with
  | .error e => .error e
  | .ok (bm, r1) =>
    match regFill 4 bm 0 32 (List.replicate 20 0) r1 with
    | .error e => .error e
    | .ok (vals, r2) =>
      .ok ({ bitmask := bm, values := vals, type := .REG_32, is_populated := true }, r2)

/-- Models the count-driven loop of Reader::ReadRam: u32 address and u8 value
per entry, in file order. -/
def ramLoop : Nat → List Nat → Decode (List RamEntry × List Nat)
  | 0, rem => .ok ([], rem)
  | n + 1, rem =>
    match readUInt 4 rem with
    | .error e => .error e
    | .ok (addr, r1) =>
      match readUInt 1 r1 with
      | .error e => .error e
      | .ok (v, r2) =>
        match ramLoop n r2 with
        | .error e => .error e
        | .ok (es, r3) => .ok ({ address := addr, value := v } :: es, r3)

/-- Models Reader::ReadRam: u32 entry count then that many entries. -/
def readRam (rem : List Nat) : Decode (List RamEntry × List Nat) :=
  match readUInt 4 rem with
  | .error e => .error e
  | .ok (count, r1) => ramLoop count r1

/-- Models Reader::ReadQueue: u32 length then that many raw bytes. -/
def readQueue (rem : List Nat) : Decode (QueueData × List Nat) :=
  match readUInt 4 rem with
  | .error e => .error e
  | .ok (len, r1) =>
    match readBytesL len r1 with
    | .error e => .error e
    | .ok (bs, r2) => .ok (⟨bs⟩, r2)

/-- Models the per-entry field reads of Reader::ReadCycles, in the strict
source order of the fifteen bytes of each record. -/
def cycleLoop : Nat → List Nat → Decode (List Cycle × List Nat)
  | 0, rem => .ok ([], rem)
  | n + 1, rem =>
    match readUInt 1 rem with
    | .error e => .error e
    | .ok (p0, r1) =>
      match readUInt 4 r1 with
      | .error e => .error e
      | .ok (addr, r2) =>
        match readUInt 1 r2 with
        | .error e => .error e
        | .ok (seg, r3) =>
          match readUInt 1 r3 with
          | .error e => .error e
          | .ok (mem, r4) =>
            match readUInt 1 r4 with
            | .error e => .error e
            | .ok (io, r5) =>
              match readUInt 1 r5 with
              | .error e => .error e
              | .ok (p1, r6) =>
                match readUInt 2 r6 with
                | .error e => .error e
                | .ok (db, r7) =>
                  match readUInt 1 r7 with
                  | .error e => .error e
                  | .ok (bus, r8) =>
                    match readUInt 1 r8 with
                    | .error e => .error e
                    | .ok (ts, r9) =>
                      match readUInt 1 r9 with
                      | .error e => .error e
                      | .ok (qop, r10) =>
                        match readUInt 1 r10 with
                        | .error e => .error e
                        | .ok (qb, r11) =>
                          match cycleLoop n r11 with
                          | .error e => .error e
                          | .ok (cs, r12) =>
                            .ok ({ pin_bitfield0 := p0, address_latch := addr,
                                   segment_status := seg, memory_status := mem,
                                   io_status := io, pin_bitfield1 := p1,
                                   data_bus := db, bus_status := bus,
                                   t_state := ts, queue_op_status := qop,
                                   queue_byte_read := qb } :: cs, r12)

/-- Models Reader::ReadCycles: u32 count then that many 15-byte records. -/
def readCycles (rem : List Nat) : Decode (List Cycle × List Nat) :=
  match readUInt 4 rem with
  | .error e => .error e
  | .ok (count, r1) => cycleLoop count r1

/-- Models the dispatch body of the while loop of Reader::ReadCpuState: REGS,
RG32, RMSK, RM32, RAM and QUEU update the state; every other tag falls
through and the chunk is skipped. The incidental consumption of the payload
readers is discarded, as the cursor is reset to the chunk boundary by the
loop. -/
def stepCpuChunk (ch : ChunkHeader) (after : List Nat) (s : CpuState) : Decode CpuState :=
  if ch.type = tagREGS then
    match readRegisters16 after with
    | .error e => .error e
    | .ok (r, _) => .ok { s with regs := r }
  else if ch.type = tagRG32 then
    match readRegisters32 after with
    | .error e => .error e
    | .ok (r, _) => .ok { s with regs := r }
  else if ch.type = tagRMSK then
    match readRegisters16 after with
    | .error e => .error e
    | .ok (r, _) => .ok { s with masks := r }
  else if ch.type = tagRM32 then
    match readRegisters32 after with
    | .error e => .error e
    | .ok (r, _) => .ok { s with masks := r }
  else if ch.type = tagRAM then
    match readRam after with
    | .error e => .error e
    | .ok (es, _) => .ok { s with ram := es }
  else if ch.type = tagQUEU then
    match readQueue after with
    | .error e => .error e
    | .ok (q, _) => .ok { s with queue := q, has_queue := true }
  else .ok s

/-- Models the shared shape of the two chunk-bounded while loops of the
source (ReadCpuState and the subchunk loop of ReadTest): while the remaining
byte budget lim of the enclosing chunk is positive, read a chunk header,
dispatch on it through step, then reset the cursor to the chunk boundary by
dropping exactly 8 + length bytes and charging them to the budget
(saturating, as an overrunning subchunk makes the C++ offset pass data_end
and the loop exit). The fuel argument only bounds the recursion; each
iteration charges at least 8 to the budget, so fuel = lim + 1 never runs
out. -/
def chunkLoop {s0 : Type} (step : ChunkHeader → List Nat → s0 → Decode s0) :
    Nat → Nat → List Nat → s0 → Decode s0
  | 0, _, _, _ => .error .truncated
  | _ + 1, 0, _, s => .ok s
  | fuel + 1, lim + 1, rem, s =>
    match readChunkHeader rem with
    | .error e => .error e
    | .ok (ch, after) =>
      match step ch after s with
      | .error e => .error e
      | .ok s1 => chunkLoop step fuel ((lim + 1) - (8 + ch.length)) (rem.drop (8 + ch.length)) s1

/-- Models Reader::ReadCpuState over a chunk payload of lim bytes beginning
at rem (rem also carries everything after the payload, since reads of an
overrunning subchunk may cross the payload end in the source). -/
def readCpuState (lim : Nat) (rem : List Nat) : Decode CpuState :=
  chunkLoop stepCpuChunk (lim + 1) lim rem default

/-- Models the dispatch body of the subchunk loop of Reader::ReadTest: NAME,
BYTS, INIT, FINA, CYCL, EXCP and HASH update the test under construction;
GMET and every unknown tag are skipped. -/
def stepTestChunk (ch : ChunkHeader) (after : List Nat) (t : Test) : Decode Test :=
  if ch.type = tagNAME then
    match readUInt 4 after with
    | .error e => .error e
    | .ok (len, r1) =>
      match readBytesL len r1 with
      | .error e => .error e
      | .ok (nm, _) => .ok { t with name := nm }
  else if ch.type = tagBYTS then
    match readUInt 4 after with
    | .error e => .error e
    | .ok (len, r1) =>
      match readBytesL len r1 with
      | .error e => .error e
      | .ok (bs, _) => .ok { t with bytes := bs }
  else if ch.type = tagINIT then
    match readCpuState ch.length after with
    | .error e => .error e
    | .ok s => .ok { t with init_state := s }
  else if ch.type = tagFINA then
    match readCpuState ch.length after with
    | .error e => .error e
    | .ok s => .ok { t with final_state := s }
  else if ch.type = tagCYCL then
    match readCycles after with
    | .error e => .error e
    | .ok (cs, _) => .ok { t with cycles := cs }
  else if ch.type = tagEXCP then
    match readUInt 1 after with
    | .error e => .error e
    | .ok (num, r1) =>
      match readUInt 4 r1 with
      | .error e => .error e
      | .ok (fa, _) => .ok { t with exception := ⟨num, fa⟩, has_exception := true }
  else if ch.type = tagHASH then
    match readBytesL 20 after with
    | .error e => .error e
    | .ok (h, _) => .ok { t with hash := h, has_hash := true }
  else .ok t

/-- Models the leading while loop of Reader::ReadTest that skips any chunk
whose tag is not TEST by its own length and retries. Each iteration consumes
an 8-byte header from rem, so fuel = rem.length + 1 never runs out. -/
def readTestSkip : Nat → List Nat → Decode (ChunkHeader × List Nat)
  | 0, _ => .error .truncated
  | fuel + 1, rem =>
    match readChunkHeader rem with
    | .error e => .error e
    | .ok (ch, after) =>
      if ch.type = tagTEST then .ok (ch, after)
      else readTestSkip fuel (rem.drop (8 + ch.length))

/-- Models Reader::ReadTest: find the TEST chunk header (skipping strays),
read the u32 test index, run the subchunk loop over the rest of the TEST
payload (budget length - 4), and finally reset the cursor to the end of the
TEST chunk, i.e. drop exactly its length after the header. -/
def readTest (rem : List Nat) : Decode (Test × List Nat) :=
  match readTestSkip (rem.length + 1) rem with
  | .error e => .error e
  | .ok (ch, after) =>
    match readUInt 4 after with
    | .error e => .error e
    | .ok (idx, r1) =>
      match chunkLoop stepTestChunk (ch.length + 1) (ch.length - 4) r1
          { (default : Test) with index := idx } with
      | .error e => .error e
      | .ok t => .ok (t, after.drop ch.length)

/-- Models the CPU-name dispatch of Reader::ReadMooHeader over the 8-byte
space-padded name; an unrecognised name is the UnsupportedCpu failure. -/
def resolveCpu (name : List Nat) : Decode CPUType :=
  if name = [56, 48, 56, 56, 32, 32, 32, 32] ∨ name = [56, 56, 32, 32, 32, 32, 32, 32] then
    .ok .CPU8088
  else if name = [56, 48, 56, 54, 32, 32, 32, 32] then .ok .CPU8086
  else if name = [86, 50, 48, 32, 32, 32, 32, 32] then .ok .CPUV20
  else if name = [86, 51, 48, 32, 32, 32, 32, 32] then .ok .CPUV30
  else if name = [50, 56, 54, 32, 32, 32, 32, 32] then .ok .CPU286
  else if name = [67, 50, 56, 54, 32, 32, 32, 32] then .ok .CPU286
  else if name = [51, 56, 54, 69, 32, 32, 32, 32] then .ok .CPU386E
  else .error .unsupportedCpu

/-- Models Reader::ReadMooHeader: u8 major version, u8 minor version, 2
reserved bytes and the u32 test count are read for every file; then the
decoder dispatches on GetVersionU16, accepting exactly 0x0100 and 0x0101,
and in both cases reads the 4 CPU-name bytes into the front of an 8-byte
space-filled name, which is resolved against the CPU enumeration. -/
def readMooHeader (rem : List Nat) : Decode MooHeader :=
  match readUInt 1 rem with
  | .error e => .error e
  | .ok (vmaj, r1) =>
    match readUInt 1 r1 with
    | .error e => .error e
    | .ok (vmin, r2) =>
      match readBytesL 2 r2 with
      | .error e => .error e
      | .ok (resv, r3) =>
        match readUInt 4 r3 with
        | .error e => .error e
        | .ok (tc, r4) =>
          if vmaj <<< 8 ||| vmin = 0x0100 then
            match readBytesL 4 r4 with
            | .error e => .error e
            | .ok (cn, _) =>
              match resolveCpu (cn ++ [32, 32, 32, 32]) with
              | .error e => .error e
              | .ok ct =>
                .ok { version_major := vmaj, version_minor := vmin,
                      reserved := resv, test_count := tc,
                      cpu_name := cn ++ [32, 32, 32, 32], cpu_type := ct }
          else if vmaj <<< 8 ||| vmin = 0x0101 then
            match readBytesL 4 r4 with
            | .error e => .error e
            | .ok (cn, _) =>
              match resolveCpu (cn ++ [32, 32, 32, 32]) with
              | .error e => .error e
              | .ok ct =>
                .ok { version_major := vmaj, version_minor := vmin,
                      reserved := resv, test_count := tc,
                      cpu_name := cn ++ [32, 32, 32, 32], cpu_type := ct }
          else .error .unsupportedVersion

/-- Models an assignment test_map[hash] = i of the unordered_map: the journal
representation prepends the new binding, so that a later binding of the same
key shadows an earlier one exactly as the overwrite does. -/
def mapInsert (m : List (List Nat × Nat)) (k : List Nat) (v : Nat) : List (List Nat × Nat) :=
  (k, v) :: m

/-- Lookup in the journal representation of the hash-to-index map: the most
recent binding of the key wins, matching unordered_map overwrite
semantics. -/
def mapLookup (m : List (List Nat × Nat)) (k : List Nat) : Option Nat :=
  (m.find? (fun p => p.1 == k)).map (fun p => p.2)

/-- Models the test-reading for loop of Reader::Analyze: read count tests in
sequence, appending each to the tests vector and binding its hash to its
index in the map. -/
def analyzeLoop : Nat → Nat → List Nat → List Test → List (List Nat × Nat) →
    Decode (List Test × List (List Nat × Nat))
  | 0, _, _, tests, m => .ok (tests, m)
  | n + 1, i, rem, tests, m =>
    match readTest rem with
    | .error e => .error e
    | .ok (t, rem1) => analyzeLoop n (i + 1) rem1 (tests ++ [t]) (mapInsert m t.hash i)

/-- Models the decoded Reader after Analyze: the file header, the tests in
file order and the hash-to-index map. -/
structure Reader where
  mooheader : MooHeader
  tests : List Test
  test_map : List (List Nat × Nat)
deriving DecidableEq, Repr

/-- Models Reader::Analyze: the first chunk must be MOO , its payload is the
file header, the cursor is reset to the end of the first chunk, and then
test_count tests are read. -/
def analyze (d : List Nat) : Decode Reader :=
  match readChunkHeader d with
  | .error e => .error e
  | .ok (first, after) =>
    if first.type = tagMOO then
      match readMooHeader after with
      | .error e => .error e
      | .ok mh =>
        match analyzeLoop mh.test_count 0 (d.drop (8 + first.length)) [] [] with
        | .error e => .error e
        | .ok (ts, m) => .ok { mooheader := mh, tests := ts, test_map := m }
    else .error .invalidContainer

/-- Models Reader::HasTest: membership of a hash in the test map. -/
def HasTest (r : Reader) (h : List Nat) : Bool :=
  (mapLookup r.test_map h).isSome

/-- Models Reader::GetTest: index the tests vector by the mapped index; the
out_of_range throw of unordered_map::at becomes none. -/
def GetTest (r : Reader) (h : List Nat) : Option Test :=
  (mapLookup r.test_map h).bind (fun i => r.tests.get? i)

/-- Models Reader::HexToInt: decimal digits, upper and lower case hex
letters; anything else throws Invalid value in revocation list. -/
def hexToInt (c : Nat) : Decode Nat :=
  if 48 ≤ c ∧ c ≤ 57 then .ok (c - 48)
  else if 65 ≤ c ∧ c ≤ 70 then .ok (c - 65 + 10)
  else if 97 ≤ c ∧ c ≤ 102 then .ok (c - 97 + 10)
  else .error .invalidRevocation

/-- Models the hash-conversion for loop of Reader::AddRevocationList: the
characters of a 40-character line taken two at a time, each pair becoming
HexToInt(high) * 16 + HexToInt(low); the first invalid character aborts with
the HexToInt failure. -/
def decodeHexPairs : List Nat → Decode (List Nat)
  | [] => .ok []
  | [_] => .error .invalidRevocation
  | c1 :: c2 :: rest =>
    match hexToInt c1 with
    | .error e => .error e
    | .ok a =>
      match hexToInt c2 with
      | .error e => .error e
      | .ok b =>
        match decodeHexPairs rest with
        | .error e => .error e
        | .ok hs => .ok ((a * 16 + b) :: hs)

/-- Models unordered_set::insert on the revocation list: adds the hash when
not already present. -/
def insertHash (s : List (List Nat)) (h : List Nat) : List (List Nat) :=
  if s.contains h then s else s ++ [h]

/-- Models the line loop of Reader::AddRevocationList over the lines read by
getline: a line that is empty, starts with the # character (byte 35) or whose
length is not 40 is skipped; otherwise its 40 characters are hex-decoded into
a 20-byte hash and inserted. A HexToInt throw aborts the whole call (in the
C++ source it propagates out of AddRevocationList, leaving earlier insertions
in the member set). -/
def addRevocationList (s : List (List Nat)) : List (List Nat) → Decode (List (List Nat))
  | [] => .ok s
  | line :: rest =>
    if line = [] ∨ line.head? = some 35 ∨ line.length ≠ 40 then
      addRevocationList s rest
    else
      match decodeHexPairs line with
      | .error e => .error e
      | .ok h => addRevocationList (insertHash s h) rest

/-- Models Reader::IsRevoked: membership of the hash of a test in the
revocation set. -/
def IsRevoked (s : List (List Nat)) (t : Test) : Bool :=
  s.contains t.hash

/-- Models Reader::GetRevokedCount exactly as written in the source: the
return type is bool and the body is static_cast of the revocation-set size,
so the function reports only whether the set is nonempty. -/
def GetRevokedCount (s : List (List Nat)) : Bool :=
  s.length != 0

/-- Little-endian 4-byte encoding of a u32 chunk length, used to build
synthetic chunks for the unknown-chunk-tolerance property. -/
def u32le (n : Nat) : List Nat :=
  [n % 256, n / 256 % 256, n / 65536 % 256, n / 16777216 % 256]

/-- Byte serialisation of one chunk: 4 tag bytes, u32 length, payload. -/
def encodeChunk (t p : List Nat) : List Nat :=
  t ++ u32le p.length ++ p

/-- Byte serialisation of a sequence of sibling chunks. -/
def encodeChunks : List (List Nat × List Nat) → List Nat
  | [] => []
  | c :: cs => encodeChunk c.1 c.2 ++ encodeChunks cs

/-- A chunk whose tag is 4 bytes and whose payload length fits in a u32, so
that its serialisation parses back to itself. -/
def WFChunk (c : List Nat × List Nat) : Prop :=
  c.1.length = 4 ∧ c.2.length < 4294967296

/-- A chunk is self-contained for a dispatch step when the step result over
its payload does not depend on the bytes after the payload: the decode of
the chunk never reads past its own declared extent. -/
def SelfContained {s0 : Type} (step : ChunkHeader → List Nat → s0 → Decode s0)
    (c : List Nat × List Nat) : Prop :=
  ∀ (s : s0) (r r' : List Nat),
    step ⟨c.1, c.2.length⟩ (c.2 ++ r) s = step ⟨c.1, c.2.length⟩ (c.2 ++ r') s

/-- Number of set bits of n strictly below bit position i (the rank of bit i
among the set bits scanned from bit 0). -/
def popcountBelow (n i : Nat) : Nat :=
  (List.range i).countP (fun j => n.testBit j)

/-- The 20-byte all-zeros hash, the value of the hash member of a test whose
TEST payload held no HASH subchunk. -/
def zeros20 : List Nat := List.replicate 20 0

/-- Claim-side count following the words of the specification: the number of
tests of the current collection whose hash is a member of the revocation
set. Stated from the specification for comparison with GetRevokedCount - the
source has no such computation. -/
def revokedCountSpec (s : List (List Nat)) (tests : List Test) : Nat :=
  (tests.filter (fun t => s.contains t.hash)).length

/-- Claim-side decoder following the words of the specification for a
version 1.0 file header: a single version byte, 3 reserved bytes that do not
take part in the dispatch, the u32 test count and the 4 CPU-name bytes.
Stated from the specification for comparison with readMooHeader. -/
def readMooHeaderClaimV10 (rem : List Nat) : Decode MooHeader :=
  match readUInt 1 rem with
  | .error e => .error e
  | .ok (ver, r1) =>
    match readBytesL 3 r1 with
    | .error e => .error e
    | .ok (resv, r2) =>
      match readUInt 4 r2 with
      | .error e => .error e
      | .ok (tc, r3) =>
        if ver = 1 then
          match readBytesL 4 r3 with
          | .error e => .error e
          | .ok (cn, _) =>
            match resolveCpu (cn ++ [32, 32, 32, 32]) with
            | .error e => .error e
            | .ok ct =>
              .ok { version_major := ver, version_minor := 0,
                    reserved := resv, test_count := tc,
                    cpu_name := cn ++ [32, 32, 32, 32], cpu_type := ct }
        else .error .unsupportedVersion

/-- Decoded register state of the REGS payload 03 00 34 12 78 56: ax and bx
selected with values 0x1234 and 0x5678. -/
def regsC3 : RegisterState :=
  { bitmask := 3, values := [4660, 22136, 0, 0, 0, 0, 0, 0, 0, 0, 0, 0, 0, 0],
    type := .REG_16, is_populated := true }

/-- Concrete 16-bit register state selecting ax and bx with values 0x1111 and
0x2222, used as a decoded initial state in witnesses. -/
def wRegs3 : RegisterState :=
  { bitmask := 3, values := [4369, 8738, 0, 0, 0, 0, 0, 0, 0, 0, 0, 0, 0, 0],
    type := .REG_16, is_populated := true }

/-- Concrete test whose final state leaves every register absent (bitmask 0),
so every final lookup falls back to the initial state. -/
def wTestC1 : Test :=
  { (default : Test) with init_state := { (default : CpuState) with regs := wRegs3 } }

/-- Concrete final-state mask selecting ax with mask value 0x00FF. -/
def wMask1 : RegisterState :=
  { bitmask := 1, values := [255, 0, 0, 0, 0, 0, 0, 0, 0, 0, 0, 0, 0, 0],
    type := .REG_16, is_populated := true }

/-- Concrete final-state registers selecting ax with value 0x1234. -/
def wRegsAx : RegisterState :=
  { bitmask := 1, values := [4660, 0, 0, 0, 0, 0, 0, 0, 0, 0, 0, 0, 0, 0],
    type := .REG_16, is_populated := true }

/-- Concrete test where ax is present in the final bitmask and masked by a
final-state mask entry. -/
def wTestC2 : Test :=
  { (default : Test) with
    init_state := { (default : CpuState) with regs := wRegs3 },
    final_state := { (default : CpuState) with regs := wRegsAx, masks := wMask1 } }

/-- Byte image of one TEST chunk whose final state omits ax from the REGS
bitmask while its RMSK carries a mask entry for ax, and whose initial ax is
0x1234: the decoded test refutes the unconditional masking law. -/
def dTestC2 : List Nat :=
  encodeChunk tagTEST ([0, 0, 0, 0]
    ++ encodeChunk tagINIT (encodeChunk tagREGS [1, 0, 52, 18])
    ++ encodeChunk tagFINA (encodeChunk tagREGS [0, 0]
        ++ encodeChunk tagRMSK [1, 0, 255, 0]))

/-- Byte image of a minimal two-test file: a MOO header for CPU 8088, version
1.1, test count 2, followed by two TEST chunks holding only their u32 index
(so neither carries a HASH subchunk). -/
def dC10 : List Nat :=
  encodeChunk tagMOO [1, 1, 0, 0, 2, 0, 0, 0, 56, 48, 56, 56]
    ++ encodeChunk tagTEST [0, 0, 0, 0]
    ++ encodeChunk tagTEST [1, 0, 0, 0]

/-- The decoded Reader of dC10: two hashless tests, both bound to the
all-zeros key, the later binding shadowing the earlier. -/
def rC10 : Reader :=
  { mooheader := { version_major := 1, version_minor := 1, reserved := [0, 0],
                   test_count := 2, cpu_name := [56, 48, 56, 56, 32, 32, 32, 32],
                   cpu_type := .CPU8088 },
    tests := [default, { (default : Test) with index := 1 }],
    test_map := [(zeros20, 1), (zeros20, 0)] }

/-- Helper: a fixed-width read succeeds when enough bytes remain. -/
theorem readUInt_of_le (n : Nat) (rem : List Nat) (h : n ≤ rem.length) :
    readUInt n rem = .ok (le (rem.take n), rem.drop n) := by
  simp [readUInt, h]

/-- Helper: a raw byte read succeeds when enough bytes remain. -/
theorem readBytesL_of_le (n : Nat) (rem : List Nat) (h : n ≤ rem.length) :
    readBytesL n rem = .ok (rem.take n, rem.drop n) := by
  simp [readBytesL, h]

/-- C1: for every test and every register absent from the final-state
RegisterSet bitmask, Test::GetFinalRegister returns exactly
Test::GetInitialRegister for that register, with or without masking - the
unchanged-register fallback to the INIT snapshot, not a zero default. Stated
for the 16-bit and the 32-bit accessor overloads. -/
theorem c1_unchanged_register_fallback :
    (∀ (t : Test) (reg : Fin 14) (masked : Bool),
      t.final_state.regs.HasRegister16 reg = false →
      t.GetFinalRegister16 reg masked = t.GetInitialRegister16 reg) ∧
    (∀ (t : Test) (reg : Fin 20) (masked : Bool),
      t.final_state.regs.HasRegister32 reg = false →
      t.GetFinalRegister32 reg masked = t.GetInitialRegister32 reg) := by
  constructor
  · intro t reg masked h
    simp [Test.GetFinalRegister16, h]
  · intro t reg masked h
    simp [Test.GetFinalRegister32, h]

/-- Witness for c1_unchanged_register_fallback at a concrete test: bx is
absent from the final bitmask and resolves to the initial value 0x2222. -/
theorem c1_witness :
    wTestC1.final_state.regs.HasRegister16 1 = false ∧
    wTestC1.GetFinalRegister16 1 true = wTestC1.GetInitialRegister16 1 ∧
    wTestC1.GetInitialRegister16 1 = some 8738 :=
  ⟨by decide, c1_unchanged_register_fallback.1 wTestC1 1 true (by decide), by decide⟩

/-- C2 counterexample: a decoded test whose FINA payload omits ax from the
REGS bitmask but whose RMSK carries a governing mask entry for ax. The
masked accessor returns the unmasked initial value 0x1234, not
final_raw(ax) AND mask(ax): the raw stored entry is 0 and the resolved final
is 0x1234, so the masked results would be 0 respectively 0x34, and the
accessor returns neither. -/
theorem c2_counterexample :
    (readTest dTestC2).toOption.map
        (fun p => (p.1.final_state.masks.HasRegister16 0,
                   p.1.final_state.regs.HasRegister16 0,
                   p.1.GetInitialRegister16 0,
                   p.1.GetFinalRegister16 0 true)) =
      some (true, false, some 4660, some 4660) ∧
    (4660 : Nat) &&& 255 = 52 ∧ (4660 : Nat) ≠ 52 ∧ (4660 : Nat) ≠ 0 := by decide

/-- C2 amended: the only governing mask is the per-test final-state mask
(no top-level mask exists in the reader), and it is applied only when the
register is present in the final bitmask: present and governed gives
raw AND mask, present and not governed gives the raw value, and an absent
register resolves to the initial value with no mask applied even when a mask
entry for it exists. Stated for both accessor overloads. -/
theorem c2_masking_law_amended :
    (∀ (t : Test) (reg : Fin 14) (v m : Nat),
      t.final_state.regs.HasRegister16 reg = true →
      t.final_state.regs.GetRegister16 reg = some v →
      t.final_state.masks.HasRegister16 reg = true →
      t.final_state.masks.GetRegister16 reg = some m →
      t.GetFinalRegister16 reg true = some (v &&& m)) ∧
    (∀ (t : Test) (reg : Fin 14) (v : Nat),
      t.final_state.regs.HasRegister16 reg = true →
      t.final_state.regs.GetRegister16 reg = some v →
      t.final_state.masks.HasRegister16 reg = false →
      t.GetFinalRegister16 reg true = some v) ∧
    (∀ (t : Test) (reg : Fin 14),
      t.final_state.regs.HasRegister16 reg = false →
      t.GetFinalRegister16 reg true = t.GetInitialRegister16 reg) ∧
    (∀ (t : Test) (reg : Fin 20) (v m : Nat),
      t.final_state.regs.HasRegister32 reg = true →
      t.final_state.regs.GetRegister32 reg = some v →
      t.final_state.masks.HasRegister32 reg = true →
      t.final_state.masks.GetRegister32 reg = some m →
      t.GetFinalRegister32 reg true = some (v &&& m)) ∧
    (∀ (t : Test) (reg : Fin 20) (v : Nat),
      t.final_state.regs.HasRegister32 reg = true →
      t.final_state.regs.GetRegister32 reg = some v →
      t.final_state.masks.HasRegister32 reg = false →
      t.GetFinalRegister32 reg true = some v) ∧
    (∀ (t : Test) (reg : Fin 20),
      t.final_state.regs.HasRegister32 reg = false →
      t.GetFinalRegister32 reg true = t.GetInitialRegister32 reg) := by
  refine ⟨?_, ?_, ?_, ?_, ?_, ?_⟩
  · intro t reg v m h1 h2 h3 h4
    simp [Test.GetFinalRegister16, h1, h2, h3, h4]
  · intro t reg v h1 h2 h3
    simp [Test.GetFinalRegister16, h1, h2, h3]
  · intro t reg h
    simp [Test.GetFinalRegister16, h]
  · intro t reg v m h1 h2 h3 h4
    simp [Test.GetFinalRegister32, h1, h2, h3, h4]
  · intro t reg v h1 h2 h3
    simp [Test.GetFinalRegister32, h1, h2, h3]
  · intro t reg h
    simp [Test.GetFinalRegister32, h]

/-- Witness for c2_masking_law_amended: ax present with value 0x1234 and
governed by mask 0x00FF gives 0x0034. -/
theorem c2_witness :
    wTestC2.final_state.regs.HasRegister16 0 = true ∧
    wTestC2.GetFinalRegister16 0 true = some 52 := by
  refine ⟨by decide, ?_⟩
  rw [c2_masking_law_amended.1 wTestC2 0 4660 255 (by decide) (by decide) (by decide) (by decide)]
  decide

/-- C6: the CPU-name dispatch of ReadMooHeader rejects the identifier 186
that the format documentation lists as a current CPU ID (doc/moo_format_v1.md),
while it accepts 286 and 88 which lie outside the documented enumeration
{8088, 8086, V20, V30, 186, C286, 386E}. The second conjunct runs the whole
header decode on a well-formed version 1.1 header naming CPU 186. -/
theorem c6_cpu_enumeration_bug :
    resolveCpu [49, 56, 54, 32, 32, 32, 32, 32] = .error .unsupportedCpu ∧
    readMooHeader [1, 1, 0, 0, 1, 0, 0, 0, 49, 56, 54, 32] = .error .unsupportedCpu ∧
    resolveCpu [50, 56, 54, 32, 32, 32, 32, 32] = .ok .CPU286 ∧
    resolveCpu [56, 56, 32, 32, 32, 32, 32, 32] = .ok .CPU8088 := by decide

/-- Helper: HexToInt fails only with the invalid-revocation error. -/
theorem hexToInt_error_eq (c : Nat) (e : DecodeError)
    (h : hexToInt c = .error e) : e = .invalidRevocation := by
  unfold hexToInt at h
  split_ifs at h
  simp_all

/-- Helper: the pairwise hex decode of a line fails with the invalid
revocation error as soon as the line holds any non-hex character. -/
theorem decodeHexPairs_err : ∀ (cs : List Nat),
    (∃ c ∈ cs, hexToInt c = .error .invalidRevocation) →
    decodeHexPairs cs = .error .invalidRevocation
  | [], h => by simp at h
  | [c], _ => by simp [decodeHexPairs]
  | c1 :: c2 :: rest, h => by
    rcases h with ⟨c, hc, hbad⟩
    unfold decodeHexPairs
    rcases List.mem_cons.mp hc with h1 | hc2
    · subst h1
      rw [hbad]
    · cases he1 : hexToInt c1 with
      | error e => rw [hexToInt_error_eq c1 e he1]
      | ok a =>
        rcases List.mem_cons.mp hc2 with h2 | hc3
        · subst h2
          rw [hbad]
        · cases he2 : hexToInt c2 with
          | error e => rw [hexToInt_error_eq c2 e he2]
          | ok b =>
            rw [decodeHexPairs_err rest ⟨c, hc3, hbad⟩]

/-- C7 counterexample: a single 40-character line of non-hex characters makes
AddRevocationList fail outright instead of being skipped, and a well-formed
line after it is not loaded either; the third conjunct contrasts with a
well-formed all-zero line that does load. -/
theorem c7_counterexample :
    addRevocationList [] [List.replicate 40 122] = .error .invalidRevocation ∧
    addRevocationList [] [List.replicate 40 122, List.replicate 40 48] =
      .error .invalidRevocation ∧
    addRevocationList [] [List.replicate 40 48] = .ok [List.replicate 20 0] := by
  decide

/-- C7 amended: blank lines, lines beginning with the # character and lines
whose length is not 40 are skipped without failing, and a file of only such
lines loads as a no-op; but a 40-character non-comment line holding any
non-hex character aborts the whole load with the invalid-revocation error
(it is not skipped locally), while a fully hex 40-character line inserts its
decoded hash and continues. -/
theorem c7_revocation_line_handling :
    (∀ (s : List (List Nat)) (l : List Nat) (rest : List (List Nat)),
      (l = [] ∨ l.head? = some 35 ∨ l.length ≠ 40) →
      addRevocationList s (l :: rest) = addRevocationList s rest) ∧
    (∀ (s : List (List Nat)) (l : List Nat) (rest : List (List Nat)),
      l.length = 40 → l.head? ≠ some 35 →
      (∃ c ∈ l, hexToInt c = .error .invalidRevocation) →
      addRevocationList s (l :: rest) = .error .invalidRevocation) ∧
    (∀ (s : List (List Nat)) (lines : List (List Nat)),
      (∀ l ∈ lines, l = [] ∨ l.head? = some 35 ∨ l.length ≠ 40) →
      addRevocationList s lines = .ok s) ∧
    (∀ (s : List (List Nat)) (l : List Nat) (rest : List (List Nat)) (hs : List Nat),
      ¬(l = [] ∨ l.head? = some 35 ∨ l.length ≠ 40) →
      decodeHexPairs l = .ok hs →
      addRevocationList s (l :: rest) = addRevocationList (insertHash s hs) rest) := by
  refine ⟨?_, ?_, ?_, ?_⟩
  · intro s l rest h
    simp only [addRevocationList, if_pos h]
  · intro s l rest hlen hhead hbad
    have hskip : ¬(l = [] ∨ l.head? = some 35 ∨ l.length ≠ 40) := by
      push_neg
      refine ⟨?_, hhead, hlen⟩
      intro hnil
      rw [hnil] at hlen
      simp at hlen
    simp only [addRevocationList, if_neg hskip]
    rw [decodeHexPairs_err l hbad]
  · intro s lines hall
    induction lines with
    | nil => rfl
    | cons l rest ih =>
      have hl := hall l (List.mem_cons_self l rest)
      simp only [addRevocationList, if_pos hl]
      exact ih (fun x hx => hall x (List.mem_cons_of_mem l hx))
  · intro s l rest hs hskip hdec
    simp only [addRevocationList, if_neg hskip]
    rw [hdec]

/-- Witness for c7_revocation_line_handling: a 40-character z line aborts the
load, a comment line is skipped, and an all-zero hex line inserts the zero
hash. -/
theorem c7_witness :
    addRevocationList [] [List.replicate 40 122] = .error .invalidRevocation ∧
    addRevocationList [] [[35, 35, 35]] = .ok [] ∧
    addRevocationList [] [List.replicate 40 48] = .ok [List.replicate 20 0] := by
  refine ⟨c7_revocation_line_handling.2.1 [] _ [] (by decide) (by decide)
      ⟨122, by decide, by decide⟩, ?_, ?_⟩
  · exact c7_revocation_line_handling.2.2.1 [] [[35, 35, 35]] (by decide)
  · rw [c7_revocation_line_handling.2.2.2 [] _ [] (List.replicate 20 0)
      (by decide) (by decide)]
    decide

/-- C8: GetRevokedCount as written returns the bool cast of the revocation
set size, not the number of tests of the current collection whose hash is
revoked: with two loaded hashes and a collection whose single test matches
neither, it reports true (printed as 1) while the specified count is 0. The
companion IsRevoked conjunct shows the membership half of the claim does
hold at this input. -/
theorem c8_revoked_count_bug :
    GetRevokedCount (insertHash (insertHash [] (List.replicate 20 1)) (List.replicate 20 2)) = true ∧
    revokedCountSpec
        (insertHash (insertHash [] (List.replicate 20 1)) (List.replicate 20 2))
        [default] = 0 ∧
    IsRevoked (insertHash (insertHash [] (List.replicate 20 1)) (List.replicate 20 2))
        default = false := by decide

/-- C5 counterexample: a header whose bytes read, under the claimed 1.0
layout (one version byte then three ignored reserved bytes), as a valid
version 1.0 header for CPU 8088 with reserved bytes 7, 0, 0. The decoder at
the cited lines instead reads byte 1 as the minor version, sees version 1.7
and fails with the unsupported-version error, while the claim-side decoder
accepts it. There is no separate 1.0 layout path in the code. -/
theorem c5_counterexample :
    readMooHeader [1, 7, 0, 0, 0, 0, 0, 0, 56, 48, 56, 56] = .error .unsupportedVersion ∧
    readMooHeaderClaimV10 [1, 7, 0, 0, 0, 0, 0, 0, 56, 48, 56, 56] =
      .ok { version_major := 1, version_minor := 0, reserved := [7, 0, 0],
            test_count := 0, cpu_name := [56, 48, 56, 56, 32, 32, 32, 32],
            cpu_type := .CPU8088 } := by decide

/-- C5 amended: the header decoder reads the version fields first - byte 0
as the major and byte 1 as the minor version - followed by 2 reserved bytes
and the u32 test count, for every file; it then dispatches on the combined
version, accepting exactly 1.0 (0x0100) and 1.1 (0x0101), and both accepted
branches decode the identical layout ending in the 4 CPU-name bytes; any
other version pair fails with the unsupported-version error. -/
theorem c5_version_dispatch (rem : List Nat) (h : 12 ≤ rem.length) :
    readMooHeader rem =
      (if le (rem.take 1) <<< 8 ||| le ((rem.drop 1).take 1) = 256 ∨
          le (rem.take 1) <<< 8 ||| le ((rem.drop 1).take 1) = 257 then
        match resolveCpu ((rem.drop 8).take 4 ++ [32, 32, 32, 32]) with
        | .error e => .error e
        | .ok ct =>
          .ok { version_major := le (rem.take 1),
                version_minor := le ((rem.drop 1).take 1),
                reserved := (rem.drop 2).take 2,
                test_count := le ((rem.drop 4).take 4),
                cpu_name := (rem.drop 8).take 4 ++ [32, 32, 32, 32],
                cpu_type := ct }
      else .error .unsupportedVersion) := by
  simp only [readMooHeader]
  rw [readUInt_of_le 1 rem (by omega)]
  simp only []
  rw [readUInt_of_le 1 (rem.drop 1) (by simp; omega)]
  simp only [List.drop_drop]
  rw [readBytesL_of_le 2 (rem.drop 2) (by simp; omega)]
  simp only [List.drop_drop]
  rw [readUInt_of_le 4 (rem.drop 4) (by simp; omega)]
  simp only [List.drop_drop]
  simp only [List.drop_one]
  by_cases h1 : le (rem.take 1) <<< 8 ||| le (rem.tail.take 1) = 256
  · simp only [h1, if_pos, if_true]
    rw [readBytesL_of_le 4 (rem.drop 8) (by simp; omega)]
    simp
  · by_cases h2 : le (rem.take 1) <<< 8 ||| le (rem.tail.take 1) = 257
    · simp only [h1, h2, if_false, if_true]
      rw [readBytesL_of_le 4 (rem.drop 8) (by simp; omega)]
      simp [h1]
    · simp only [List.drop_one] at h2
      simp [h1, h2]

/-- Witness for c5_version_dispatch: a version 1.1 header with nonzero
reserved bytes decodes to CPU 8086 with the stated field layout. -/
theorem c5_witness :
    readMooHeader [1, 1, 9, 9, 2, 0, 0, 0, 56, 48, 56, 54] =
      .ok { version_major := 1, version_minor := 1, reserved := [9, 9],
            test_count := 2, cpu_name := [56, 48, 56, 54, 32, 32, 32, 32],
            cpu_type := .CPU8086 } := by
  rw [c5_version_dispatch [1, 1, 9, 9, 2, 0, 0, 0, 56, 48, 56, 54] (by decide)]
  decide

/-- Helper: a fixed-width read fails only with the truncation error. -/
theorem readUInt_error_eq (n : Nat) (rem : List Nat) (e : DecodeError)
    (h : readUInt n rem = .error e) : e = .truncated := by
  unfold readUInt at h
  split_ifs at h
  simp_all

/-- Helper: the register fill loop never reports an out-of-range store when
every set bit of the scanned window indexes inside the values vector. -/
theorem regFill_ne_badIndex (w bm : Nat) :
    ∀ (count i : Nat) (values rem : List Nat),
      (∀ j, i ≤ j → j < i + count → bm.testBit j = true → j < values.length) →
      regFill w bm i count values rem ≠ .error .badIndex := by
  intro count
  induction count with
  | zero =>
    intro i values rem hj
    simp [regFill]
  | succ n ih =>
    intro i values rem hj
    simp only [regFill]
    by_cases hb : bm.testBit i
    · simp only [hb, if_true]
      cases hr : readUInt w rem with
      | error e =>
        rw [readUInt_error_eq w rem e hr]
        simp
      | ok p =>
        obtain ⟨v, rem1⟩ := p
        have hi : i < values.length := hj i (le_refl i) (by omega) hb
        simp only [hi, if_true]
        exact ih (i + 1) (values.set i v) rem1 (fun j h1 h2 hbit => by
          rw [List.length_set]
          exact hj j (by omega) (by omega) hbit)
    · simp only [hb, if_false]
      simp only [Bool.false_eq_true, if_false]
      exact ih (i + 1) values rem (fun j h1 h2 hbit => hj j (by omega) (by omega) hbit)

/-- C9: ReadRegisters16 sizes its values vector to 14 entries but scans
bitmask bits 0 through 15. When bits 14 and 15 of the decoded bitmask are
clear, every store of the fill loop is within bounds, so the checked
embedding never reports the out-of-range failure; and a bitmask with bit 15
set drives the store out of bounds even with ample input bytes. -/
theorem c9_register_fill_bounds :
    (∀ rem : List Nat,
      (le (rem.take 2)).testBit 14 = false →
      (le (rem.take 2)).testBit 15 = false →
      readRegisters16 rem ≠ .error .badIndex) ∧
    readRegisters16 [0, 128, 0, 0] = .error .badIndex := by
  constructor
  · intro rem h14 h15
    unfold readRegisters16
    split
    · rename_i e heq
      rw [readUInt_error_eq 2 rem e heq]
      simp
    · rename_i p bm r1 heq
      have hbm : bm = le (rem.take 2) := by
        unfold readUInt at heq
        split_ifs at heq
        simp_all
      subst hbm
      split
      · rename_i e heq2
        have hne : e ≠ DecodeError.badIndex := by
          intro hcon
          subst hcon
          refine regFill_ne_badIndex 2 (le (rem.take 2)) 16 0 (List.replicate 14 0) r1 ?_ heq2
          intro j _ hj hbit
          simp only [List.length_replicate]
          by_cases e14 : j = 14
          · subst e14
            rw [h14] at hbit
            simp at hbit
          · by_cases e15 : j = 15
            · subst e15
              rw [h15] at hbit
              simp at hbit
            · omega
        simp [hne]
      · rename_i vals r2 heq2
        simp
  · decide

/-- Witness for c9_register_fill_bounds: a bitmask selecting ax and bx has
bits 14 and 15 clear, so the decode does not hit the bounds failure. -/
theorem c9_witness :
    (le ([3, 0, 52, 18, 120, 86].take 2)).testBit 14 = false ∧
    readRegisters16 [3, 0, 52, 18, 120, 86] ≠ .error .badIndex :=
  ⟨by decide, c9_register_fill_bounds.1 [3, 0, 52, 18, 120, 86] (by decide) (by decide)⟩

/-- Helper: the set-bit count below k+1 adds one exactly when bit k is set. -/
theorem popcountBelow_succ (n k : Nat) :
    popcountBelow n (k + 1) = popcountBelow n k + (if n.testBit k = true then 1 else 0) := by
  unfold popcountBelow
  rw [List.range_succ, List.countP_append]
  simp [List.countP_cons]

/-- Helper: the set-bit count below a bound is monotone in the bound. -/
theorem popcountBelow_mono (n : Nat) {a b : Nat} (h : a ≤ b) :
    popcountBelow n a ≤ popcountBelow n b :=
  (List.range_sublist.mpr h).countP_le _

/-- Helper: arithmetic step relating the byte offsets of consecutive
set-bit values of width w. -/
theorem mulsub_step (w A B : Nat) (h : B + 1 ≤ A) :
    w + w * (A - (B + 1)) = w * (A - B) := by
  obtain ⟨k, hk⟩ : ∃ k, A = B + 1 + k := ⟨A - (B + 1), by omega⟩
  subst hk
  have h1 : B + 1 + k - (B + 1) = k := by omega
  have h2 : B + 1 + k - B = k + 1 := by omega
  rw [h1, h2, Nat.mul_succ]
  omega

/-- Helper: full characterisation of the register fill loop on success over
the window of count bits starting at bit i: the values vector keeps its
length, exactly one w-byte value is consumed per set bit of the window in
ascending bit order, entry j receives the value whose byte offset is w times
the number of set bits between i and j, and every other entry is
untouched. -/
theorem regFill_spec (w bm : Nat) :
    ∀ (count i : Nat) (values rem vals rest : List Nat),
      regFill w bm i count values rem = .ok (vals, rest) →
      vals.length = values.length ∧
      rest = rem.drop (w * (popcountBelow bm (i + count) - popcountBelow bm i)) ∧
      (∀ j, j < i ∨ i + count ≤ j → vals[j]? = values[j]?) ∧
      (∀ j, i ≤ j → j < i + count → bm.testBit j = false → vals[j]? = values[j]?) ∧
      (∀ j, i ≤ j → j < i + count → bm.testBit j = true →
        vals[j]? = some (le ((rem.drop (w * (popcountBelow bm j - popcountBelow bm i))).take w))) := by
  intro count
  induction count with
  | zero =>
    intro i values rem vals rest h
    simp only [regFill, Except.ok.injEq, Prod.mk.injEq] at h
    obtain ⟨h1, h2⟩ := h
    subst h1
    subst h2
    refine ⟨rfl, by simp, fun j _ => rfl, fun j h1 h2 _ => by omega, fun j h1 h2 _ => by omega⟩
  | succ n ih =>
    intro i values rem vals rest h
    simp only [regFill] at h
    by_cases hb : bm.testBit i
    · simp only [hb, if_true] at h
      cases hr : readUInt w rem with
      | error e =>
        rw [hr] at h
        simp at h
      | ok p =>
        obtain ⟨v, rem1⟩ := p
        rw [hr] at h
        simp only [] at h
        by_cases hi : i < values.length
        · simp only [hi, if_true] at h
          have hread : v = le (rem.take w) ∧ rem1 = rem.drop w := by
            unfold readUInt at hr
            split_ifs at hr
            simp_all
          obtain ⟨hv, hrem1⟩ := hread
          subst hv
          subst hrem1
          obtain ⟨ih1, ih2, ih3, ih4, ih5⟩ := ih (i + 1) (values.set i (le (rem.take w))) (rem.drop w) vals rest h
          have hpc : popcountBelow bm (i + 1) = popcountBelow bm i + 1 := by
            rw [popcountBelow_succ]
            simp [hb]
          refine ⟨ih1.trans (List.length_set values i _), ?_, ?_, ?_, ?_⟩
          · rw [ih2, List.drop_drop]
            have harg : popcountBelow bm (i + 1 + n) = popcountBelow bm (i + (n + 1)) := by
              rw [show i + 1 + n = i + (n + 1) from by omega]
            rw [harg]
            have hm : popcountBelow bm i + 1 ≤ popcountBelow bm (i + (n + 1)) := by
              have := popcountBelow_mono bm (show i + 1 ≤ i + (n + 1) from by omega)
              omega
            congr 1
            rw [hpc]
            exact mulsub_step w _ _ hm
          · intro j hj
            rw [ih3 j (by omega), List.getElem?_set_ne (by omega)]
          · intro j hj1 hj2 hjb
            by_cases hji : j = i
            · subst hji
              rw [hb] at hjb
              simp at hjb
            · rw [ih4 j (by omega) (by omega) hjb, List.getElem?_set_ne (by omega)]
          · intro j hj1 hj2 hjb
            by_cases hji : j = i
            · subst hji
              rw [ih3 j (by omega), List.getElem?_set_self hi]
              simp
            · have hjm : popcountBelow bm i + 1 ≤ popcountBelow bm j := by
                have := popcountBelow_mono bm (show i + 1 ≤ j from by omega)
                omega
              rw [ih5 j (by omega) (by omega) hjb, List.drop_drop, hpc,
                mulsub_step w _ _ hjm]
        · simp only [hi, if_false] at h
          simp at h
    · simp only [hb] at h
      simp only [Bool.false_eq_true, if_false] at h
      obtain ⟨ih1, ih2, ih3, ih4, ih5⟩ := ih (i + 1) values rem vals rest h
      have hpc : popcountBelow bm (i + 1) = popcountBelow bm i := by
        rw [popcountBelow_succ]
        simp [hb]
      refine ⟨ih1, ?_, ?_, ?_, ?_⟩
      · rw [ih2]
        have harg : popcountBelow bm (i + 1 + n) = popcountBelow bm (i + (n + 1)) := by
          rw [show i + 1 + n = i + (n + 1) from by omega]
        rw [harg, hpc]
      · intro j hj
        rcases hj with hj | hj
        · exact ih3 j (Or.inl (by omega))
        · exact ih3 j (Or.inr (by omega))
      · intro j hj1 hj2 hjb
        by_cases hji : j = i
        · subst hji
          exact ih3 j (Or.inl (by omega))
        · exact ih4 j (by omega) (by omega) hjb
      · intro j hj1 hj2 hjb
        have hji : j ≠ i := by
          intro hcon
          subst hcon
          exact hb hjb
        rw [ih5 j (by omega) (by omega) hjb, hpc]


/-- Helper: no set bits lie below bit 0. -/
theorem popcountBelow_zero (n : Nat) : popcountBelow n 0 = 0 := by
  simp [popcountBelow]

/-- C3: ReadRegisters16 and ReadRegisters32 read the bitmask (u16 and u32
respectively) and then exactly one value of the matching width per set bit,
scanning from the least significant bit: on success the consumed input is
the bitmask plus width times popcount many bytes (so the count of values
read equals the popcount), the entry at bit position j holds the value read
for the j-th set bit - the one at byte offset given by the number of set
bits below j - and entries at clear bit positions stay zero. -/
theorem c3_bitmask_driven_decode :
    (∀ (rem : List Nat) (regs : RegisterState) (rest : List Nat),
      readRegisters16 rem = .ok (regs, rest) →
      regs.bitmask = le (rem.take 2) ∧
      regs.values.length = 14 ∧
      rest = rem.drop (2 + 2 * popcountBelow regs.bitmask 16) ∧
      (∀ j, j < 16 → regs.bitmask.testBit j = true →
        regs.values[j]? = some (le ((rem.drop (2 + 2 * popcountBelow regs.bitmask j)).take 2))) ∧
      (∀ j, j < 14 → regs.bitmask.testBit j = false → regs.values[j]? = some 0)) ∧
    (∀ (rem : List Nat) (regs : RegisterState) (rest : List Nat),
      readRegisters32 rem = .ok (regs, rest) →
      regs.bitmask = le (rem.take 4) ∧
      regs.values.length = 20 ∧
      rest = rem.drop (4 + 4 * popcountBelow regs.bitmask 32) ∧
      (∀ j, j < 32 → regs.bitmask.testBit j = true →
        regs.values[j]? = some (le ((rem.drop (4 + 4 * popcountBelow regs.bitmask j)).take 4))) ∧
      (∀ j, j < 20 → regs.bitmask.testBit j = false → regs.values[j]? = some 0)) := by
  constructor
  · intro rem regs rest h
    unfold readRegisters16 at h
    split at h
    · simp at h
    · rename_i p bm r1 heq
      have hread : bm = le (rem.take 2) ∧ r1 = rem.drop 2 := by
        unfold readUInt at heq
        split_ifs at heq
        simp_all
      obtain ⟨hbm, hr1⟩ := hread
      split at h
      · simp at h
      · rename_i q vals r2 heq2
        simp only [Except.ok.injEq, Prod.mk.injEq] at h
        obtain ⟨hregs, hrest⟩ := h
        subst hregs
        subst hrest
        obtain ⟨s1, s2, s3, s4, s5⟩ := regFill_spec 2 bm 16 0 (List.replicate 14 0) r1 vals r2 heq2
        simp only []
        refine ⟨hbm, by simp [s1], ?_, ?_, ?_⟩
        · rw [s2, hr1, popcountBelow_zero, List.drop_drop]
          simp
        · intro j hj hbit
          rw [s5 j (by omega) (by omega) hbit, hr1, popcountBelow_zero, List.drop_drop]
          simp
        · intro j hj hbit
          rw [s4 j (by omega) (by omega) hbit, List.getElem?_replicate_of_lt hj]
  · intro rem regs rest h
    unfold readRegisters32 at h
    split at h
    · simp at h
    · rename_i p bm r1 heq
      have hread : bm = le (rem.take 4) ∧ r1 = rem.drop 4 := by
        unfold readUInt at heq
        split_ifs at heq
        simp_all
      obtain ⟨hbm, hr1⟩ := hread
      split at h
      · simp at h
      · rename_i q vals r2 heq2
        simp only [Except.ok.injEq, Prod.mk.injEq] at h
        obtain ⟨hregs, hrest⟩ := h
        subst hregs
        subst hrest
        obtain ⟨s1, s2, s3, s4, s5⟩ := regFill_spec 4 bm 32 0 (List.replicate 20 0) r1 vals r2 heq2
        simp only []
        refine ⟨hbm, by simp [s1], ?_, ?_, ?_⟩
        · rw [s2, hr1, popcountBelow_zero, List.drop_drop]
          simp
        · intro j hj hbit
          rw [s5 j (by omega) (by omega) hbit, hr1, popcountBelow_zero, List.drop_drop]
          simp
        · intro j hj hbit
          rw [s4 j (by omega) (by omega) hbit, List.getElem?_replicate_of_lt hj]

/-- Witness for c3_bitmask_driven_decode: the REGS payload 03 00 34 12 78 56
09 09 decodes to the register state regsC3 with bx = 0x5678 read as the
second value and leftover 09 09. -/
theorem c3_witness :
    readRegisters16 [3, 0, 52, 18, 120, 86, 9, 9] = .ok (regsC3, [9, 9]) ∧
    regsC3.values[1]? = some 22136 ∧ popcountBelow 3 16 = 2 := by
  refine ⟨by decide, ?_, by decide⟩
  rw [(c3_bitmask_driven_decode.1 [3, 0, 52, 18, 120, 86, 9, 9] regsC3 [9, 9]
    (by decide)).2.2.2.1 1 (by decide) (by decide)]
  decide

/-- Helper: the little-endian 4-byte encoding of a u32 reads back to itself. -/
theorem le_u32le (n : Nat) (h : n < 4294967296) : le (u32le n) = n := by
  simp only [u32le, le]
  omega

/-- Helper: the u32 encoding is 4 bytes. -/
theorem length_u32le (n : Nat) : (u32le n).length = 4 := rfl

/-- Helper: a serialised chunk is its 8-byte header plus its payload. -/
theorem length_encodeChunk (t p : List Nat) (ht : t.length = 4) :
    (encodeChunk t p).length = 8 + p.length := by
  simp [encodeChunk, List.length_append, length_u32le, ht]
  omega

/-- Helper: parsing a serialised chunk from the front of a buffer yields its
tag and payload length and leaves the payload followed by the rest. -/
theorem readChunkHeader_encode (t p rest : List Nat) (ht : t.length = 4)
    (hp : p.length < 4294967296) :
    readChunkHeader (encodeChunk t p ++ rest) =
      .ok (⟨t, p.length⟩, p ++ rest) := by
  unfold readChunkHeader encodeChunk
  rw [List.append_assoc, List.append_assoc]
  rw [readBytesL_of_le 4 (t ++ (u32le p.length ++ (p ++ rest))) (by simp [ht])]
  dsimp only
  rw [List.take_left' ht, List.drop_left' ht]
  rw [readUInt_of_le 4 (u32le p.length ++ (p ++ rest)) (by simp [length_u32le])]
  dsimp only
  rw [List.take_left' (length_u32le p.length), List.drop_left' (length_u32le p.length)]
  rw [le_u32le p.length hp]

/-- Helper: a successful chunk-header parse consumed exactly 8 bytes of a
buffer at least 8 bytes long. -/
theorem readChunkHeader_ok_facts (rem : List Nat) (ch : ChunkHeader) (after : List Nat)
    (h : readChunkHeader rem = .ok (ch, after)) :
    8 ≤ rem.length ∧ after = rem.drop 8 := by
  unfold readChunkHeader at h
  by_cases hl1 : 4 ≤ rem.length
  · rw [readBytesL_of_le 4 rem hl1] at h
    dsimp only at h
    by_cases hl2 : 4 ≤ (rem.drop 4).length
    · rw [readUInt_of_le 4 (rem.drop 4) hl2] at h
      dsimp only at h
      simp only [Except.ok.injEq, Prod.mk.injEq] at h
      obtain ⟨hch, hafter⟩ := h
      rw [List.length_drop] at hl2
      refine ⟨by omega, ?_⟩
      rw [← hafter, List.drop_drop]
    · have he : readUInt 4 (rem.drop 4) = .error .truncated := by
        rw [List.length_drop] at hl2
        simp only [readUInt, List.length_drop]
        rw [if_neg (by omega)]
      rw [he] at h
      simp at h
  · have he : readBytesL 4 rem = .error .truncated := by
      simp [readBytesL, hl1]
    rw [he] at h
    simp at h

/-- Helper: the chunk loop does not depend on its fuel once the fuel exceeds
the byte budget, because every iteration charges at least an 8-byte header
to the budget. -/
theorem chunkLoop_fuel {s0 : Type} (step : ChunkHeader → List Nat → s0 → Decode s0) :
    ∀ (lim f1 f2 : Nat) (rem : List Nat) (s : s0),
      lim + 1 ≤ f1 → lim + 1 ≤ f2 →
      chunkLoop step f1 lim rem s = chunkLoop step f2 lim rem s := by
  intro lim
  induction lim using Nat.strong_induction_on with
  | _ lim ih =>
    intro f1 f2 rem s h1 h2
    obtain ⟨g1, rfl⟩ : ∃ g, f1 = g + 1 := ⟨f1 - 1, by omega⟩
    obtain ⟨g2, rfl⟩ : ∃ g, f2 = g + 1 := ⟨f2 - 1, by omega⟩
    cases lim with
    | zero => rfl
    | succ l =>
      simp only [chunkLoop]
      cases hh : readChunkHeader rem with
      | error e => rfl
      | ok p =>
        obtain ⟨ch, after⟩ := p
        dsimp only
        cases hs : step ch after s with
        | error e => rfl
        | ok s1 =>
          exact ih ((l + 1) - (8 + ch.length)) (by omega) g1 g2 _ s1 (by omega) (by omega)

/-- Helper: one-step unfolding of the chunk loop on a positive budget, with
the recursive call at its canonical fuel. -/
theorem chunkLoop_step {s0 : Type} (step : ChunkHeader → List Nat → s0 → Decode s0)
    (f lim : Nat) (rem : List Nat) (s : s0) (hlim : 0 < lim) (hf : lim + 1 ≤ f) :
    chunkLoop step f lim rem s =
      (match readChunkHeader rem with
      | .error e => .error e
      | .ok (ch, after) =>
        match step ch after s with
        | .error e => .error e
        | .ok s1 =>
          chunkLoop step (lim - (8 + ch.length) + 1) (lim - (8 + ch.length))
            (rem.drop (8 + ch.length)) s1) := by
  obtain ⟨g, rfl⟩ : ∃ g, f = g + 1 := ⟨f - 1, by omega⟩
  obtain ⟨l, rfl⟩ : ∃ l, lim = l + 1 := ⟨lim - 1, by omega⟩
  simp only [chunkLoop]
  cases hh : readChunkHeader rem with
  | error e => rfl
  | ok p =>
    obtain ⟨ch, after⟩ := p
    dsimp only
    cases hs : step ch after s with
    | error e => rfl
    | ok s1 =>
      exact chunkLoop_fuel step ((l + 1) - (8 + ch.length)) g _ _ s1 (by omega) (by omega)

/-- Helper: inserting one serialised chunk whose dispatch is a no-op after
any run of well-formed self-contained chunks does not change the result of
the chunk loop, whatever the remaining budget and bytes are. -/
theorem chunkLoop_insert {s0 : Type} (step : ChunkHeader → List Nat → s0 → Decode s0)
    (utag upay : List Nat) (hu4 : utag.length = 4) (hu32 : upay.length < 4294967296)
    (hstep : ∀ (after : List Nat) (s : s0), step ⟨utag, upay.length⟩ after s = .ok s) :
    ∀ (cs : List (List Nat × List Nat)),
      (∀ c ∈ cs, WFChunk c) → (∀ c ∈ cs, SelfContained step c) →
      ∀ (L : Nat) (suffix : List Nat) (s : s0) (f1 f2 : Nat),
      (encodeChunks cs).length + (encodeChunk utag upay).length + L + 1 ≤ f1 →
      (encodeChunks cs).length + L + 1 ≤ f2 →
      chunkLoop step f1 ((encodeChunks cs).length + (encodeChunk utag upay).length + L)
          (encodeChunks cs ++ (encodeChunk utag upay ++ suffix)) s =
      chunkLoop step f2 ((encodeChunks cs).length + L)
          (encodeChunks cs ++ suffix) s := by
  intro cs
  induction cs with
  | nil =>
    intro _ _ L suffix s f1 f2 hf1 hf2
    simp only [encodeChunks, List.length_nil, List.nil_append, Nat.zero_add] at *
    have hlen : (encodeChunk utag upay).length = 8 + upay.length :=
      length_encodeChunk utag upay hu4
    rw [chunkLoop_step step f1 ((encodeChunk utag upay).length + L)
      (encodeChunk utag upay ++ suffix) s (by omega) hf1]
    rw [readChunkHeader_encode utag upay suffix hu4 hu32]
    dsimp only
    rw [hstep (upay ++ suffix) s]
    dsimp only
    have hlim : (encodeChunk utag upay).length + L - (8 + upay.length) = L := by
      omega
    have hdrop : (encodeChunk utag upay ++ suffix).drop (8 + upay.length) = suffix :=
      List.drop_left' hlen
    rw [hlim, hdrop]
    exact chunkLoop_fuel step L (L + 1) f2 suffix s (by omega) hf2
  | cons c cs ih =>
    intro hwf hsc L suffix s f1 f2 hf1 hf2
    have hc4 : c.1.length = 4 := (hwf c (List.mem_cons_self c cs)).1
    have hc32 : c.2.length < 4294967296 := (hwf c (List.mem_cons_self c cs)).2
    have hecl : (encodeChunk c.1 c.2).length = 8 + c.2.length :=
      length_encodeChunk c.1 c.2 hc4
    simp only [encodeChunks, List.length_append, List.append_assoc] at *
    rw [chunkLoop_step step f1 _ _ s (by omega) (by omega)]
    rw [chunkLoop_step step f2 _ _ s (by omega) (by omega)]
    rw [readChunkHeader_encode c.1 c.2 (encodeChunks cs ++ (encodeChunk utag upay ++ suffix)) hc4 hc32]
    rw [readChunkHeader_encode c.1 c.2 (encodeChunks cs ++ suffix) hc4 hc32]
    dsimp only
    have hsame := hsc c (List.mem_cons_self c cs) s
      (encodeChunks cs ++ (encodeChunk utag upay ++ suffix)) (encodeChunks cs ++ suffix)
    rw [hsame]
    cases hv : step ⟨c.1, c.2.length⟩ (c.2 ++ (encodeChunks cs ++ suffix)) s with
    | error e => rfl
    | ok s1 =>
      dsimp only
      have hdropL : (encodeChunk c.1 c.2 ++ (encodeChunks cs ++ (encodeChunk utag upay ++ suffix))).drop
          (8 + c.2.length) = encodeChunks cs ++ (encodeChunk utag upay ++ suffix) :=
        List.drop_left' (by omega)
      have hdropR : (encodeChunk c.1 c.2 ++ (encodeChunks cs ++ suffix)).drop
          (8 + c.2.length) = encodeChunks cs ++ suffix :=
        List.drop_left' (by omega)
      rw [hdropL, hdropR]
      have hlimL : (encodeChunk c.1 c.2).length + (encodeChunks cs).length +
          (encodeChunk utag upay).length + L - (8 + c.2.length) =
          (encodeChunks cs).length + (encodeChunk utag upay).length + L := by omega
      have hlimR : (encodeChunk c.1 c.2).length + (encodeChunks cs).length + L -
          (8 + c.2.length) = (encodeChunks cs).length + L := by omega
      rw [hlimL, hlimR]
      exact ih (fun x hx => hwf x (List.mem_cons_of_mem c hx))
        (fun x hx => hsc x (List.mem_cons_of_mem c hx)) L suffix s1 _ _ (by omega) (by omega)

/-- Helper: the CpuState dispatch ignores a chunk with an unrecognised tag. -/
theorem stepCpuChunk_unknown (utag : List Nat) (n : Nat) (after : List Nat) (s : CpuState)
    (h1 : utag ≠ tagREGS) (h2 : utag ≠ tagRG32) (h3 : utag ≠ tagRMSK)
    (h4 : utag ≠ tagRM32) (h5 : utag ≠ tagRAM) (h6 : utag ≠ tagQUEU) :
    stepCpuChunk ⟨utag, n⟩ after s = .ok s := by
  simp [stepCpuChunk, h1, h2, h3, h4, h5, h6]

/-- Helper: the Test dispatch ignores a chunk with an unrecognised tag. -/
theorem stepTestChunk_unknown (utag : List Nat) (n : Nat) (after : List Nat) (t : Test)
    (h1 : utag ≠ tagNAME) (h2 : utag ≠ tagBYTS) (h3 : utag ≠ tagINIT)
    (h4 : utag ≠ tagFINA) (h5 : utag ≠ tagCYCL) (h6 : utag ≠ tagEXCP)
    (h7 : utag ≠ tagHASH) :
    stepTestChunk ⟨utag, n⟩ after t = .ok t := by
  simp [stepTestChunk, h1, h2, h3, h4, h5, h6, h7]

/-- Helper: the TEST-seeking skip loop does not depend on its fuel once the
fuel exceeds the buffer length. -/
theorem readTestSkip_fuel : ∀ (n : Nat) (rem : List Nat) (f1 f2 : Nat),
    rem.length ≤ n → rem.length + 1 ≤ f1 → rem.length + 1 ≤ f2 →
    readTestSkip f1 rem = readTestSkip f2 rem := by
  intro n
  induction n using Nat.strong_induction_on with
  | _ n ih =>
    intro rem f1 f2 hn h1 h2
    obtain ⟨g1, rfl⟩ : ∃ g, f1 = g + 1 := ⟨f1 - 1, by omega⟩
    obtain ⟨g2, rfl⟩ : ∃ g, f2 = g + 1 := ⟨f2 - 1, by omega⟩
    simp only [readTestSkip]
    cases hh : readChunkHeader rem with
    | error e => rfl
    | ok p =>
      obtain ⟨ch, after⟩ := p
      dsimp only
      by_cases ht : ch.type = tagTEST
      · rw [if_pos ht, if_pos ht]
      · rw [if_neg ht, if_neg ht]
        obtain ⟨hlen8, -⟩ := readChunkHeader_ok_facts rem ch after hh
        have hlt : (rem.drop (8 + ch.length)).length < n := by
          rw [List.length_drop]
          omega
        exact ih (rem.drop (8 + ch.length)).length hlt (rem.drop (8 + ch.length)) g1 g2
          (le_refl _) (by rw [List.length_drop]; omega) (by rw [List.length_drop]; omega)

/-- Helper: ReadTest skips a leading serialised chunk whose tag is not TEST
by its own length, decoding exactly as if it were absent. -/
theorem readTest_skip_front (utag upay rest : List Nat) (hu4 : utag.length = 4)
    (hu32 : upay.length < 4294967296) (hne : utag ≠ tagTEST) :
    readTest (encodeChunk utag upay ++ rest) = readTest rest := by
  unfold readTest
  have hlen : (encodeChunk utag upay).length = 8 + upay.length :=
    length_encodeChunk utag upay hu4
  have hskip : readTestSkip ((encodeChunk utag upay ++ rest).length + 1)
      (encodeChunk utag upay ++ rest) = readTestSkip (rest.length + 1) rest := by
    simp only [readTestSkip]
    rw [readChunkHeader_encode utag upay rest hu4 hu32]
    dsimp only
    rw [if_neg hne]
    have hdrop : (encodeChunk utag upay ++ rest).drop (8 + upay.length) = rest :=
      List.drop_left' hlen
    rw [hdrop]
    exact readTestSkip_fuel rest.length rest ((encodeChunk utag upay ++ rest).length)
      (rest.length + 1) (le_refl _) (by rw [List.length_append, hlen]; omega) (by omega)
  rw [hskip]

/-- C4: inserting a synthetic chunk with an unrecognised 4-byte tag and
arbitrary payload at a legal sibling position does not change the decoded
result: inside an INIT or FINA payload after any run of well-formed
subchunks none of which reads past its own payload (ReadCpuState, with the
budget grown by the inserted bytes as re-encoding the enclosing chunk
would), likewise inside a TEST payload (the subchunk loop of ReadTest), and
at top level before a TEST chunk (ReadTest skips it by its length). The
cursor reset to payload_end after every chunk is what each proof unfolds. -/
theorem c4_unknown_chunk_tolerance :
    (∀ (cs : List (List Nat × List Nat)) (utag upay suffix : List Nat) (L : Nat),
      (∀ c ∈ cs, WFChunk c) → (∀ c ∈ cs, SelfContained stepCpuChunk c) →
      utag.length = 4 → upay.length < 4294967296 →
      utag ≠ tagREGS → utag ≠ tagRG32 → utag ≠ tagRMSK → utag ≠ tagRM32 →
      utag ≠ tagRAM → utag ≠ tagQUEU →
      readCpuState ((encodeChunks cs).length + (encodeChunk utag upay).length + L)
          (encodeChunks cs ++ (encodeChunk utag upay ++ suffix)) =
        readCpuState ((encodeChunks cs).length + L) (encodeChunks cs ++ suffix)) ∧
    (∀ (cs : List (List Nat × List Nat)) (utag upay suffix : List Nat) (L : Nat)
        (t0 : Test) (f1 f2 : Nat),
      (∀ c ∈ cs, WFChunk c) → (∀ c ∈ cs, SelfContained stepTestChunk c) →
      utag.length = 4 → upay.length < 4294967296 →
      utag ≠ tagNAME → utag ≠ tagBYTS → utag ≠ tagINIT → utag ≠ tagFINA →
      utag ≠ tagCYCL → utag ≠ tagEXCP → utag ≠ tagHASH →
      (encodeChunks cs).length + (encodeChunk utag upay).length + L + 1 ≤ f1 →
      (encodeChunks cs).length + L + 1 ≤ f2 →
      chunkLoop stepTestChunk f1
          ((encodeChunks cs).length + (encodeChunk utag upay).length + L)
          (encodeChunks cs ++ (encodeChunk utag upay ++ suffix)) t0 =
        chunkLoop stepTestChunk f2 ((encodeChunks cs).length + L)
          (encodeChunks cs ++ suffix) t0) ∧
    (∀ (utag upay rest : List Nat),
      utag.length = 4 → upay.length < 4294967296 → utag ≠ tagTEST →
      readTest (encodeChunk utag upay ++ rest) = readTest rest) := by
  refine ⟨?_, ?_, ?_⟩
  · intro cs utag upay suffix L hwf hsc hu4 hu32 h1 h2 h3 h4 h5 h6
    unfold readCpuState
    exact chunkLoop_insert stepCpuChunk utag upay hu4 hu32
      (fun after s => stepCpuChunk_unknown utag upay.length after s h1 h2 h3 h4 h5 h6)
      cs hwf hsc L suffix default _ _ (le_refl _) (le_refl _)
  · intro cs utag upay suffix L t0 f1 f2 hwf hsc hu4 hu32 h1 h2 h3 h4 h5 h6 h7 hf1 hf2
    exact chunkLoop_insert stepTestChunk utag upay hu4 hu32
      (fun after t => stepTestChunk_unknown utag upay.length after t h1 h2 h3 h4 h5 h6 h7)
      cs hwf hsc L suffix t0 f1 f2 hf1 hf2
  · intro utag upay rest hu4 hu32 hne
    exact readTest_skip_front utag upay rest hu4 hu32 hne

/-- Witness for c4_unknown_chunk_tolerance: a chunk tagged ABCD with payload
01 02 03 inserted before a REGS subchunk, before a HASH subchunk, and before
a TEST chunk leaves each decode unchanged. -/
theorem c4_witness :
    readCpuState ((encodeChunks []).length + (encodeChunk [65, 66, 67, 68] [1, 2, 3]).length + 12)
        (encodeChunks [] ++ (encodeChunk [65, 66, 67, 68] [1, 2, 3] ++ encodeChunk tagREGS [1, 0, 52, 18])) =
      readCpuState ((encodeChunks []).length + 12)
        (encodeChunks [] ++ encodeChunk tagREGS [1, 0, 52, 18]) ∧
    chunkLoop stepTestChunk 40
        ((encodeChunks []).length + (encodeChunk [65, 66, 67, 68] [1, 2, 3]).length + 28)
        (encodeChunks [] ++ (encodeChunk [65, 66, 67, 68] [1, 2, 3] ++ encodeChunk tagHASH (List.replicate 20 7)))
        default =
      chunkLoop stepTestChunk 29 ((encodeChunks []).length + 28)
        (encodeChunks [] ++ encodeChunk tagHASH (List.replicate 20 7)) default ∧
    readTest (encodeChunk [65, 66, 67, 68] [1, 2, 3] ++ encodeChunk tagTEST [5, 0, 0, 0]) =
      readTest (encodeChunk tagTEST [5, 0, 0, 0]) := by
  refine ⟨?_, ?_, ?_⟩
  · exact c4_unknown_chunk_tolerance.1 [] [65, 66, 67, 68] [1, 2, 3]
      (encodeChunk tagREGS [1, 0, 52, 18]) 12
      (fun c hc => absurd hc (List.not_mem_nil c))
      (fun c hc => absurd hc (List.not_mem_nil c))
      (by decide) (by decide) (by decide) (by decide) (by decide) (by decide)
      (by decide) (by decide)
  · exact c4_unknown_chunk_tolerance.2.1 [] [65, 66, 67, 68] [1, 2, 3]
      (encodeChunk tagHASH (List.replicate 20 7)) 28 default 40 29
      (fun c hc => absurd hc (List.not_mem_nil c))
      (fun c hc => absurd hc (List.not_mem_nil c))
      (by decide) (by decide) (by decide) (by decide) (by decide) (by decide)
      (by decide) (by decide) (by decide) (by decide) (by decide)
  · exact c4_unknown_chunk_tolerance.2.2 [65, 66, 67, 68] [1, 2, 3]
      (encodeChunk tagTEST [5, 0, 0, 0]) (by decide) (by decide) (by decide)

/-- Invariant of the TEST subchunk loop: as long as no HASH subchunk was
seen (has_hash still false), the hash member keeps its value-initialised 20
zero bytes. -/
def HashInv (t : Test) : Prop := t.has_hash = false → t.hash = zeros20

/-- Helper: every branch of the TEST subchunk dispatch preserves HashInv -
only the HASH branch writes the hash member, and it sets has_hash. -/
theorem stepTestChunk_hashInv (ch : ChunkHeader) (after : List Nat) (t t1 : Test)
    (h : stepTestChunk ch after t = .ok t1) (hi : HashInv t) : HashInv t1 := by
  unfold stepTestChunk at h
  split_ifs at h with h1 h2 h3 h4 h5 h6 h7
  · split at h
    · simp at h
    · split at h
      · simp at h
      · simp only [Except.ok.injEq] at h
        subst h
        intro hh
        exact hi hh
  · split at h
    · simp at h
    · split at h
      · simp at h
      · simp only [Except.ok.injEq] at h
        subst h
        intro hh
        exact hi hh
  · split at h
    · simp at h
    · simp only [Except.ok.injEq] at h
      subst h
      intro hh
      exact hi hh
  · split at h
    · simp at h
    · simp only [Except.ok.injEq] at h
      subst h
      intro hh
      exact hi hh
  · split at h
    · simp at h
    · simp only [Except.ok.injEq] at h
      subst h
      intro hh
      exact hi hh
  · split at h
    · simp at h
    · split at h
      · simp at h
      · simp only [Except.ok.injEq] at h
        subst h
        intro hh
        exact hi hh
  · split at h
    · simp at h
    · simp only [Except.ok.injEq] at h
      subst h
      intro hh
      simp at hh
  · simp only [Except.ok.injEq] at h
    subst h
    exact hi

/-- Helper: the subchunk loop preserves HashInv. -/
theorem chunkLoop_hashInv : ∀ (fuel lim : Nat) (rem : List Nat) (t t1 : Test),
    chunkLoop stepTestChunk fuel lim rem t = .ok t1 → HashInv t → HashInv t1 := by
  intro fuel
  induction fuel with
  | zero =>
    intro lim rem t t1 h
    simp [chunkLoop] at h
  | succ f ih =>
    intro lim rem t t1 h hi
    cases lim with
    | zero =>
      simp only [chunkLoop, Except.ok.injEq] at h
      subst h
      exact hi
    | succ l =>
      simp only [chunkLoop] at h
      split at h
      · simp at h
      · rename_i p heq
        split at h
        · simp at h
        · rename_i t2 heq2
          exact ih _ _ t2 t1 h (stepTestChunk_hashInv _ _ t t2 heq2 hi)

/-- Helper: a decoded test satisfies HashInv, since ReadTest starts from the
value-initialised test record. -/
theorem readTest_hashInv (rem : List Nat) (t : Test) (r : List Nat)
    (h : readTest rem = .ok (t, r)) : HashInv t := by
  unfold readTest at h
  split at h
  · simp at h
  · rename_i p hskip
    split at h
    · simp at h
    · rename_i q hidx
      split at h
      · simp at h
      · rename_i t2 hloop
        simp only [Except.ok.injEq, Prod.mk.injEq] at h
        obtain ⟨ht, -⟩ := h
        subst ht
        exact chunkLoop_hashInv _ _ _ _ t2 hloop (fun _ => rfl)

/-- Helper: lookup after an insert sees the new binding for its key and the
old map for every other key - the overwrite semantics of the map. -/
theorem mapLookup_insert (m : List (List Nat × Nat)) (k0 : List Nat) (v0 : Nat)
    (key : List Nat) :
    mapLookup (mapInsert m k0 v0) key = if k0 = key then some v0 else mapLookup m key := by
  by_cases h : k0 = key
  · simp [mapInsert, mapLookup, List.find?_cons, h]
  · simp [mapInsert, mapLookup, List.find?_cons, h]

/-- Relation between the decoded tests and the hash-to-index map: a key maps
to j exactly when test j carries that hash and no later test does - last
write wins. -/
def MapInv (tests : List Test) (m : List (List Nat × Nat)) : Prop :=
  ∀ (key : List Nat) (j : Nat), mapLookup m key = some j ↔
    (∃ t, tests[j]? = some t ∧ t.hash = key ∧
      ∀ (k : Nat) (t2 : Test), j < k → tests[k]? = some t2 → t2.hash ≠ key)

/-- Helper: the empty map over no tests satisfies MapInv. -/
theorem mapInv_nil : MapInv [] [] := by
  intro key j
  simp [mapLookup]

/-- Helper: a successful optional index is within bounds. -/
theorem getElem?_some_lt {a : Type} (l : List a) (j : Nat) (x : a)
    (h : l[j]? = some x) : j < l.length := by
  by_contra hc
  push_neg at hc
  rw [List.getElem?_eq_none hc] at h
  simp at h

/-- Helper: appending a test and binding its hash to its index preserves
MapInv. -/
theorem mapInv_insert (tests : List Test) (m : List (List Nat × Nat)) (t : Test)
    (h : MapInv tests m) :
    MapInv (tests ++ [t]) (mapInsert m t.hash tests.length) := by
  intro key j
  rw [mapLookup_insert]
  by_cases hk : t.hash = key
  · rw [if_pos hk]
    constructor
    · intro hj
      simp only [Option.some.injEq] at hj
      subst hj
      refine ⟨t, ?_, hk, ?_⟩
      · rw [List.getElem?_append_right (le_refl _)]
        simp
      · intro k t2 hlt hget
        have hlen : (tests ++ [t]).length ≤ k := by
          simp only [List.length_append, List.length_cons, List.length_nil]
          omega
        rw [List.getElem?_eq_none hlen] at hget
        simp at hget
    · rintro ⟨t1, hget, hhash, hmax⟩
      have hjle : j < (tests ++ [t]).length := getElem?_some_lt _ j t1 hget
      simp only [List.length_append, List.length_cons, List.length_nil] at hjle
      rcases Nat.lt_trichotomy j tests.length with hlt | heq | hgt
      · exfalso
        refine hmax tests.length t hlt ?_ hk
        rw [List.getElem?_append_right (le_refl _)]
        simp
      · rw [heq]
      · omega
  · rw [if_neg hk, h key j]
    constructor
    · rintro ⟨t1, hget, hhash, hmax⟩
      have hjlt : j < tests.length := getElem?_some_lt _ j t1 hget
      refine ⟨t1, ?_, hhash, ?_⟩
      · rw [List.getElem?_append, if_pos hjlt]
        exact hget
      · intro k t2 hlt hget2
        by_cases hkl : k < tests.length
        · refine hmax k t2 hlt ?_
          rw [List.getElem?_append, if_pos hkl] at hget2
          exact hget2
        · by_cases hke : k = tests.length
          · subst hke
            rw [List.getElem?_append_right (le_refl _)] at hget2
            simp only [Nat.sub_self] at hget2
            simp at hget2
            subst hget2
            exact hk
          · have hlen : (tests ++ [t]).length ≤ k := by
              simp only [List.length_append, List.length_cons, List.length_nil]
              omega
            rw [List.getElem?_eq_none hlen] at hget2
            simp at hget2
    · rintro ⟨t1, hget, hhash, hmax⟩
      have hjle : j < (tests ++ [t]).length := getElem?_some_lt _ j t1 hget
      simp only [List.length_append, List.length_cons, List.length_nil] at hjle
      have hjlt : j < tests.length := by
        by_cases hje : j = tests.length
        · exfalso
          subst hje
          rw [List.getElem?_append_right (le_refl _)] at hget
          simp only [Nat.sub_self] at hget
          simp at hget
          subst hget
          exact hk hhash
        · omega
      refine ⟨t1, ?_, hhash, ?_⟩
      · rw [List.getElem?_append, if_pos hjlt] at hget
        exact hget
      · intro k t2 hlt hget2
        have hkl : k < tests.length := getElem?_some_lt _ k t2 hget2
        refine hmax k t2 hlt ?_
        rw [List.getElem?_append, if_pos hkl]
        exact hget2

/-- Helper: the test-reading loop of Analyze keeps every decoded test
satisfying HashInv and maintains MapInv. -/
theorem analyzeLoop_spec : ∀ (n i : Nat) (rem : List Nat) (tests : List Test)
    (m : List (List Nat × Nat)) (tests1 : List Test) (m1 : List (List Nat × Nat)),
    analyzeLoop n i rem tests m = .ok (tests1, m1) →
    i = tests.length → (∀ t ∈ tests, HashInv t) → MapInv tests m →
    (∀ t ∈ tests1, HashInv t) ∧ MapInv tests1 m1 := by
  intro n
  induction n with
  | zero =>
    intro i rem tests m tests1 m1 h hi hall hmap
    simp only [analyzeLoop, Except.ok.injEq, Prod.mk.injEq] at h
    obtain ⟨h1, h2⟩ := h
    subst h1
    subst h2
    exact ⟨hall, hmap⟩
  | succ k ih =>
    intro i rem tests m tests1 m1 h hi hall hmap
    simp only [analyzeLoop] at h
    split at h
    · simp at h
    · rename_i t rem1 hrt
      refine ih (i + 1) rem1 (tests ++ [t]) (mapInsert m t.hash i) tests1 m1 h ?_ ?_ ?_
      · simp only [List.length_append, List.length_cons, List.length_nil]
        omega
      · intro x hx
        rcases List.mem_append.mp hx with hx | hx
        · exact hall x hx
        · simp only [List.mem_singleton] at hx
          subst hx
          exact readTest_hashInv rem x rem1 hrt
      · subst hi
        exact mapInv_insert tests m t hmap

/-- C10: in any decoded file, every test without a HASH subchunk ends with
the all-zeros 20-byte hash, so all such tests share the single all-zeros key
of the hash-to-index map; that key is mapped to the index of the last test
whose hash is all zeros (the later binding overwrites the earlier), and
HasTest and GetTest on the all-zeros hash see only that one entry,
conflating every hashless test. -/
theorem c10_hashless_conflation (d : List Nat) (r : Reader) (h : analyze d = .ok r) :
    (∀ (i : Nat) (t : Test), r.tests[i]? = some t → t.has_hash = false → t.hash = zeros20) ∧
    (∀ j : Nat, mapLookup r.test_map zeros20 = some j ↔
      (∃ t, r.tests[j]? = some t ∧ t.hash = zeros20 ∧
        ∀ (k : Nat) (t2 : Test), j < k → r.tests[k]? = some t2 → t2.hash ≠ zeros20)) ∧
    HasTest r zeros20 = (mapLookup r.test_map zeros20).isSome ∧
    (∀ j : Nat, mapLookup r.test_map zeros20 = some j → GetTest r zeros20 = r.tests.get? j) := by
  unfold analyze at h
  split at h
  · simp at h
  · rename_i p hch
    split at h
    · split at h
      · simp at h
      · rename_i mh hmh
        split at h
        · simp at h
        · rename_i q ts m hloop
          simp only [Except.ok.injEq] at h
          subst h
          obtain ⟨hall, hmap⟩ := analyzeLoop_spec mh.test_count 0 _ [] [] ts m hloop rfl
            (fun t ht => absurd ht (List.not_mem_nil t)) mapInv_nil
          refine ⟨?_, ?_, rfl, ?_⟩
          · intro i t hget hh
            exact hall t (List.getElem?_mem hget) hh
          · intro j
            exact hmap zeros20 j
          · intro j hj
            unfold GetTest
            rw [hj]
            simp
    · simp at h


/-- Witness for c10_hashless_conflation: the two-test file dC10 without HASH
subchunks decodes so that both tests carry the zero hash and the map sends
the all-zeros key to index 1, the last such test. -/
theorem c10_witness :
    analyze dC10 = .ok rC10 ∧
    mapLookup rC10.test_map zeros20 = some 1 ∧
    (rC10.tests[0]?).map (fun t => (t.has_hash, t.hash)) = some (false, zeros20) ∧
    GetTest rC10 zeros20 = rC10.tests.get? 1 := by
  have h : analyze dC10 = .ok rC10 := by decide
  have hmain := c10_hashless_conflation dC10 rC10 h
  have hlen : rC10.tests.length = 2 := by decide
  have hlook : mapLookup rC10.test_map zeros20 = some 1 := by
    refine (hmain.2.1 1).mpr ?_
    refine ⟨{ (default : Test) with index := 1 }, by decide, by decide, ?_⟩
    intro k t2 hk hget
    rw [List.getElem?_eq_none (by rw [hlen]; omega)] at hget
    simp at hget
  exact ⟨h, hlook, by decide, hmain.2.2.2 1 hlook⟩

end MooSpec
